import Mathlib

/-!
Shallow embedding of `src/main.rs` of ModPatcherJsonGenerator: an interactive
terminal utility maintaining a list of mod-upgrade items and emitting them as
JSON.  Interactive procedures are embedded as functions over the list of lines
the user types (already trimmed, as `read_user_input` trims them): each consumes
a prefix of the input list and returns `none` when the input list is exhausted
mid-loop (in the real program the loop would keep re-prompting).  Console output
relevant to the specification (warnings and the JSON dump) is returned as an
explicit event list.
-/

namespace ModPatcher

/-- ASCII lower-casing of a character, as Rust's `to_ascii_lowercase`. -/
def asciiLowerChar (c : Char) : Char :=
  if 65 ≤ c.toNat ∧ c.toNat ≤ 90 then Char.ofNat (c.toNat + 32) else c

/-- ASCII upper-casing of a character, as Rust's `to_ascii_uppercase`. -/
def asciiUpperChar (c : Char) : Char :=
  if 97 ≤ c.toNat ∧ c.toNat ≤ 122 then Char.ofNat (c.toNat - 32) else c

/-- ASCII lower-casing of a string. -/
def asciiLower (s : String) : String := ⟨s.data.map asciiLowerChar⟩

/-- ASCII upper-casing of a string; models the `.to_uppercase()` call of
`read_user_item` (which only ever compares against the all-ASCII canonical
action strings). -/
def asciiUpper (s : String) : String := ⟨s.data.map asciiUpperChar⟩

/-- Rust's `str::eq_ignore_ascii_case`. -/
def eqIgnoreAsciiCase (a b : String) : Bool := asciiLower a == asciiLower b

/-- The `Action` enum of `main.rs`. -/
inductive Action where
  | Add
  | Delete
  | Update
deriving DecidableEq, Repr

/-- `Action::to_str` of `main.rs`. -/
def Action.to_str : Action → String
  | .Add => "ADD"
  | .Delete => "DELETE"
  | .Update => "UPDATE"

/-- `impl TryFrom<&str> for Action` of `main.rs`. -/
def Action.try_from (value : String) : Except String Action :=
  if eqIgnoreAsciiCase value "ADD" then .ok .Add
  else if eqIgnoreAsciiCase value "DELETE" then .ok .Delete
  else if eqIgnoreAsciiCase value "UPDATE" then .ok .Update
  else .error ("Invalid action: " ++ value)

/-- The `Item` struct of `main.rs`. -/
structure Item where
  filename : String
  action : Action
  download_link : String
deriving DecidableEq, Repr

/-- `impl Default for Item` of `main.rs`. -/
def Item.default : Item := ⟨"", Action.Add, ""⟩

instance : Inhabited Item := ⟨Item.default⟩

/-- Modelled from the spec: JSON values as built by the `serde_json` dependency,
whose configuration lives in the repository's `Cargo.toml`, which is not under
`src/`; per the spec ("each element is an object with keys `mod_filename`,
`action`, `download_link`, in that field order, preserving list order") object
fields keep their insertion order through serialization. -/
inductive JVal where
  | str (s : String)
  | obj (fields : List (String × JVal))
  | arr (elems : List JVal)

/-- Console events the specification talks about: a printed warning line and
the pretty-printed JSON dump of the item list. -/
inductive Out where
  | warn (msg : String)
  | jsonOut (v : JVal)

/-- `INVALID_INPUT_MSG` of `main.rs`. -/
def INVALID_INPUT_MSG : String := "WARNING: Invalid input, please try again."

/-- The warning of the index-selection loop of `read_item_idx`. -/
def OUT_OF_BOUNDS_MSG : String := "WARNING: index out of bounds, please try again."

/-- The empty-field warning of `read_user_item` (the same text is reused for
the download-link prompt). -/
def EMPTY_FILENAME_MSG : String := "WARNING: filename is empty, please try again."

/-- Warning of `DeleteItemCommand::execute` on an empty list. -/
def NO_ITEMS_DELETE_MSG : String := "WARNING: no items, cannot delete."

/-- Warning of `ModifyItemCommand::execute` on an empty list. -/
def NO_ITEMS_MODIFY_MSG : String := "WARNING: no items, cannot modify."

/-- Warning of `ShowItemsCommand::execute` on an empty list. -/
def NO_ITEMS_SHOW_MSG : String := "WARNING: no items, cannot show."

/-- Prepends a console event to the output trace of an interactive result. -/
def prependOut {α : Type} (w : Out) :
    Option (α × List String × List Out) → Option (α × List String × List Out)
  | some (x, r, o) => some (x, r, w :: o)
  | none => none

/-- Rust's `str::parse::<usize>`: an optional leading `+`, then one or more
ASCII digits, rejecting the empty digit string and values that overflow the
64-bit `usize`. -/
def parseUsize (s : String) : Option Nat :=
  let ds : List Char :=
    match s.data with
    | '+' :: rest => rest
    | l => l
  if ds = [] then none
  else if ds.all (fun c => c.isDigit) then
    let v := ds.foldl (fun a c => a * 10 + (c.toNat - 48)) 0
    if v < 2 ^ 64 then some v else none
  else none

/-- One retry loop that re-prompts while the trimmed input line is empty,
printing warning `w` each time; models the filename and download-link loops of
`read_user_item` and of `ModifyItemCommand::modify_item`. -/
def readNonEmpty (w : String) : List String → Option (String × List String × List Out)
  | [] => none
  | tok :: rest =>
    if tok = "" then prependOut (.warn w) (readNonEmpty w rest)
    else some (tok, rest, [])

/-- The action loop of `read_user_item`: upper-cases the input and compares it
with the canonical strings (Add, then Update, then Delete, as in the source),
warning with `INVALID_INPUT_MSG` otherwise. -/
def readActionAdd : List String → Option (Action × List String × List Out)
  | [] => none
  | tok :: rest =>
    let u := asciiUpper tok
    if Action.to_str .Add = u then some (.Add, rest, [])
    else if Action.to_str .Update = u then some (.Update, rest, [])
    else if Action.to_str .Delete = u then some (.Delete, rest, [])
    else prependOut (.warn INVALID_INPUT_MSG) (readActionAdd rest)

/-- `read_user_item` of `main.rs`: filename, action, then download link, each
looping until valid; the `Item` starts from `Item::default` and each loop
overwrites one field, so the result is exactly the record of the three first
valid values. -/
def read_user_item (inputs : List String) : Option (Item × List String × List Out) :=
  match readNonEmpty EMPTY_FILENAME_MSG inputs with
  | none => none
  | some (f, r1, o1) =>
    match readActionAdd r1 with
    | none => none
    | some (a, r2, o2) =>
      match readNonEmpty EMPTY_FILENAME_MSG r2 with
      | none => none
      | some (d, r3, o3) => some (⟨f, a, d⟩, r3, o1 ++ o2 ++ o3)

/-- `read_item_idx` of `main.rs`: parses the line as `usize`, does
`checked_sub(1)` (so `0` underflows to `None` and is treated as out of bounds),
bound-checks against the list length, and loops with the appropriate warning. -/
def read_item_idx (items : List Item) : List String → Option (Nat × List String × List Out)
  | [] => none
  | tok :: rest =>
    match parseUsize tok with
    | some 0 => prependOut (.warn OUT_OF_BOUNDS_MSG) (read_item_idx items rest)
    | some (k' + 1) =>
      if k' < items.length then some (k', rest, [])
      else prependOut (.warn OUT_OF_BOUNDS_MSG) (read_item_idx items rest)
    | none => prependOut (.warn INVALID_INPUT_MSG) (read_item_idx items rest)

/-- The per-item object built by `print_items_json`'s `json!` literal, fields
in the order they are written in the source. -/
def item_to_json_value (it : Item) : JVal :=
  .obj [("mod_filename", .str it.filename),
        ("action", .str (Action.to_str it.action)),
        ("download_link", .str it.download_link)]

/-- The JSON array built by `print_items_json`: one object per item, in list
order. -/
def items_to_json (items : List Item) : JVal :=
  .arr (items.map item_to_json_value)

/-- `print_items_json` of `main.rs` as its observable console effect: one JSON
dump event. -/
def print_items_json (items : List Item) : List Out :=
  [Out.jsonOut (items_to_json items)]

/-- Result of one command execution: the new list, the unread input lines, the
console events, and the exit code when the command terminates the process. -/
abbrev CmdResult := Option (List Item × List String × List Out × Option Nat)

/-- `QuitCommand::execute`: dumps the JSON when the list is non-empty, then
`std::process::exit(0)`. -/
def QuitCommand.execute (items : List Item) (inputs : List String) : CmdResult :=
  some (items, inputs, if items.isEmpty then [] else print_items_json items, some 0)

/-- `AddItemCommand::execute`: collects one item and pushes it at the end. -/
def AddItemCommand.execute (items : List Item) (inputs : List String) : CmdResult :=
  match read_user_item inputs with
  | none => none
  | some (it, r, o) => some (items ++ [it], r, o, none)

/-- `ModifyItemCommand::read_user`: loops until the field-choice token is one
of `"1"`, `"2"`, `"3"`. -/
def ModifyItemCommand.read_user : List String → Option (String × List String × List Out)
  | [] => none
  | tok :: rest =>
    if tok = "1" ∨ tok = "2" ∨ tok = "3" then some (tok, rest, [])
    else prependOut (.warn INVALID_INPUT_MSG) (ModifyItemCommand.read_user rest)

/-- The action loop of `ModifyItemCommand::modify_item`'s `"2"` branch, which
goes through `Action::try_from`. -/
def modifyReadAction : List String → Option (Action × List String × List Out)
  | [] => none
  | tok :: rest =>
    match Action.try_from tok with
    | .ok a => some (a, rest, [])
    | .error _ => prependOut (.warn INVALID_INPUT_MSG) (modifyReadAction rest)

/-- `ModifyItemCommand::modify_item`: picks a field, then loops until a valid
new value is given and overwrites exactly that field; the final `_ => {}`
catch-all of the source is the last branch. -/
def ModifyItemCommand.modify_item (item : Item) (inputs : List String) :
    Option (Item × List String × List Out) :=
  match ModifyItemCommand.read_user inputs with
  | none => none
  | some (c, r1, o1) =>
    if c = "1" then
      match readNonEmpty INVALID_INPUT_MSG r1 with
      | none => none
      | some (v, r2, o2) => some ({ item with filename := v }, r2, o1 ++ o2)
    else if c = "2" then
      match modifyReadAction r1 with
      | none => none
      | some (a, r2, o2) => some ({ item with action := a }, r2, o1 ++ o2)
    else if c = "3" then
      match readNonEmpty INVALID_INPUT_MSG r1 with
      | none => none
      | some (v, r2, o2) => some ({ item with download_link := v }, r2, o1 ++ o2)
    else some (item, r1, o1)

/-- `ModifyItemCommand::execute`: empty-list guard, index selection, then
in-place modification of the selected item. -/
def ModifyItemCommand.execute (items : List Item) (inputs : List String) : CmdResult :=
  if items.isEmpty then some (items, inputs, [.warn NO_ITEMS_MODIFY_MSG], none)
  else
    match read_item_idx items inputs with
    | none => none
    | some (idx, r1, o1) =>
      match ModifyItemCommand.modify_item (items.getD idx Item.default) r1 with
      | none => none
      | some (it', r2, o2) => some (items.set idx it', r2, o1 ++ o2, none)

/-- `DeleteItemCommand::execute`: empty-list guard, index selection, then
`Vec::remove`. -/
def DeleteItemCommand.execute (items : List Item) (inputs : List String) : CmdResult :=
  if items.isEmpty then some (items, inputs, [.warn NO_ITEMS_DELETE_MSG], none)
  else
    match read_item_idx items inputs with
    | none => none
    | some (idx, r, o) => some (items.eraseIdx idx, r, o, none)

/-- `ShowItemsCommand::execute`: empty-list guard, then the JSON dump. -/
def ShowItemsCommand.execute (items : List Item) (inputs : List String) : CmdResult :=
  if items.isEmpty then some (items, inputs, [.warn NO_ITEMS_SHOW_MSG], none)
  else some (items, inputs, print_items_json items, none)

/-- The `TerminalAction` enum of `main.rs`. -/
inductive TerminalAction where
  | Quit
  | AddItem
  | ModifyItem
  | DeleteItem
  | Show

/-- `execute_command` of `main.rs`: dispatches one command, bound to the shared
list, and executes it once. -/
def execute_command : TerminalAction → List Item → List String → CmdResult
  | .Quit, items, inputs => QuitCommand.execute items inputs
  | .AddItem, items, inputs => AddItemCommand.execute items inputs
  | .ModifyItem, items, inputs => ModifyItemCommand.execute items inputs
  | .DeleteItem, items, inputs => DeleteItemCommand.execute items inputs
  | .Show, items, inputs => ShowItemsCommand.execute items inputs

/-- An item whose two text fields are non-empty. -/
def good_item (it : Item) : Prop := it.filename ≠ "" ∧ it.download_link ≠ ""

/-- The spec's list invariant: every item has non-empty `filename` and
`download_link`. -/
def items_invariant (items : List Item) : Prop := ∀ it ∈ items, good_item it

/-- At most one field differs: the other two are preserved byte-identically. -/
def preservesTwoFields (old new : Item) : Prop :=
  (new.action = old.action ∧ new.download_link = old.download_link) ∨
  (new.filename = old.filename ∧ new.download_link = old.download_link) ∨
  (new.filename = old.filename ∧ new.action = old.action)

/-- Sample items used by concrete witnesses. -/
def demoItem1 : Item := ⟨"a.zip", Action.Add, "u1"⟩

/-- Second sample item used by concrete witnesses. -/
def demoItem2 : Item := ⟨"b.zip", Action.Delete, "u2"⟩

/-- Sample two-item list used by concrete witnesses. -/
def demoItems : List Item := [demoItem1, demoItem2]

/-- Inverting `prependOut`: a successful prepended run is a successful run with
the extra event in front. -/
lemma prependOut_eq_some {α : Type} {w : Out} {x : Option (α × List String × List Out)}
    {v : α} {r : List String} {o : List Out} (h : prependOut w x = some (v, r, o)) :
    ∃ o', x = some (v, r, o') ∧ o = w :: o' := by
  cases x with
  | none => simp [prependOut] at h
  | some y =>
    obtain ⟨v', r', o'⟩ := y
    simp only [prependOut, Option.some.injEq, Prod.mk.injEq] at h
    obtain ⟨rfl, rfl, rfl⟩ := h
    exact ⟨o', rfl, rfl⟩

/-- `readNonEmpty` never returns the empty string. -/
lemma readNonEmpty_ne {w : String} :
    ∀ inputs v r o, readNonEmpty w inputs = some (v, r, o) → v ≠ "" := by
  intro inputs
  induction inputs with
  | nil => intro v r o h; simp [readNonEmpty] at h
  | cons tok rest ih =>
    intro v r o h
    by_cases ht : tok = ""
    · rw [readNonEmpty, if_pos ht] at h
      obtain ⟨o', h', rfl⟩ := prependOut_eq_some h
      exact ih v r o' h'
    · rw [readNonEmpty, if_neg ht] at h
      simp only [Option.some.injEq, Prod.mk.injEq] at h
      obtain ⟨rfl, rfl, rfl⟩ := h
      exact ht

/-- Every event emitted by `readNonEmpty` is the warning `w`. -/
lemma readNonEmpty_warn_only {w : String} :
    ∀ inputs v r o, readNonEmpty w inputs = some (v, r, o) →
      ∀ x ∈ o, x = Out.warn w := by
  intro inputs
  induction inputs with
  | nil => intro v r o h; simp [readNonEmpty] at h
  | cons tok rest ih =>
    intro v r o h
    by_cases ht : tok = ""
    · rw [readNonEmpty, if_pos ht] at h
      obtain ⟨o', h', rfl⟩ := prependOut_eq_some h
      intro x hx
      rcases List.mem_cons.mp hx with rfl | hx'
      · rfl
      · exact ih v r o' h' x hx'
    · rw [readNonEmpty, if_neg ht] at h
      simp only [Option.some.injEq, Prod.mk.injEq] at h
      obtain ⟨rfl, rfl, rfl⟩ := h
      intro x hx
      simp at hx

/-- Every event emitted by the add-flow action loop is the invalid-input
warning. -/
lemma readActionAdd_warn_only :
    ∀ inputs a r o, readActionAdd inputs = some (a, r, o) →
      ∀ x ∈ o, x = Out.warn INVALID_INPUT_MSG := by
  intro inputs
  induction inputs with
  | nil => intro a r o h; simp [readActionAdd] at h
  | cons tok rest ih =>
    intro a r o h
    rw [readActionAdd] at h
    by_cases h1 : Action.to_str .Add = asciiUpper tok
    · rw [if_pos h1] at h
      simp only [Option.some.injEq, Prod.mk.injEq] at h
      obtain ⟨rfl, rfl, rfl⟩ := h
      intro x hx; simp at hx
    · rw [if_neg h1] at h
      by_cases h2 : Action.to_str .Update = asciiUpper tok
      · rw [if_pos h2] at h
        simp only [Option.some.injEq, Prod.mk.injEq] at h
        obtain ⟨rfl, rfl, rfl⟩ := h
        intro x hx; simp at hx
      · rw [if_neg h2] at h
        by_cases h3 : Action.to_str .Delete = asciiUpper tok
        · rw [if_pos h3] at h
          simp only [Option.some.injEq, Prod.mk.injEq] at h
          obtain ⟨rfl, rfl, rfl⟩ := h
          intro x hx; simp at hx
        · rw [if_neg h3] at h
          obtain ⟨o', h', rfl⟩ := prependOut_eq_some h
          intro x hx
          rcases List.mem_cons.mp hx with rfl | hx'
          · rfl
          · exact ih a r o' h' x hx'

/-- A successfully collected item has non-empty filename and download link. -/
lemma read_user_item_good {inputs : List String} {it : Item} {r : List String}
    {o : List Out} (h : read_user_item inputs = some (it, r, o)) : good_item it := by
  rw [read_user_item] at h
  split at h
  · cases h
  · rename_i f r1 o1 h1
    split at h
    · cases h
    · rename_i a r2 o2 h2
      split at h
      · cases h
      · rename_i d r3 o3 h3
        simp only [Option.some.injEq, Prod.mk.injEq] at h
        obtain ⟨rfl, rfl, rfl⟩ := h
        exact ⟨readNonEmpty_ne inputs f r1 o1 h1, readNonEmpty_ne r2 d r3 o3 h3⟩

/-- Every event of a successful `read_user_item` run is a warning. -/
lemma read_user_item_warn_only {inputs : List String} {it : Item} {r : List String}
    {o : List Out} (h : read_user_item inputs = some (it, r, o)) :
    ∀ x ∈ o, ∃ m, x = Out.warn m := by
  rw [read_user_item] at h
  split at h
  · cases h
  · rename_i f r1 o1 h1
    split at h
    · cases h
    · rename_i a r2 o2 h2
      split at h
      · cases h
      · rename_i d r3 o3 h3
        simp only [Option.some.injEq, Prod.mk.injEq] at h
        obtain ⟨rfl, rfl, rfl⟩ := h
        intro x hx
        rcases List.mem_append.mp hx with hx' | hx'
        · rcases List.mem_append.mp hx' with hx'' | hx''
          · exact ⟨_, readNonEmpty_warn_only inputs f r1 o1 h1 x hx''⟩
          · exact ⟨_, readActionAdd_warn_only r1 a r2 o2 h2 x hx''⟩
        · exact ⟨_, readNonEmpty_warn_only r2 d r3 o3 h3 x hx'⟩

/-- The field-choice loop only ever returns `"1"`, `"2"` or `"3"`. -/
lemma read_user_mem :
    ∀ inputs c r o, ModifyItemCommand.read_user inputs = some (c, r, o) →
      c = "1" ∨ c = "2" ∨ c = "3" := by
  intro inputs
  induction inputs with
  | nil => intro c r o h; simp [ModifyItemCommand.read_user] at h
  | cons tok rest ih =>
    intro c r o h
    by_cases ht : tok = "1" ∨ tok = "2" ∨ tok = "3"
    · rw [ModifyItemCommand.read_user, if_pos ht] at h
      simp only [Option.some.injEq, Prod.mk.injEq] at h
      obtain ⟨rfl, rfl, rfl⟩ := h
      exact ht
    · rw [ModifyItemCommand.read_user, if_neg ht] at h
      obtain ⟨o', h', rfl⟩ := prependOut_eq_some h
      exact ih c r o' h'

/-- The index returned by `read_item_idx` is always in bounds. -/
lemma read_item_idx_lt {items : List Item} :
    ∀ inputs idx r o, read_item_idx items inputs = some (idx, r, o) →
      idx < items.length := by
  intro inputs
  induction inputs with
  | nil => intro idx r o h; simp [read_item_idx] at h
  | cons tok rest ih =>
    intro idx r o h
    rw [read_item_idx] at h
    split at h
    · obtain ⟨o', h', rfl⟩ := prependOut_eq_some h
      exact ih idx r o' h'
    · split at h
      · rename_i hk
        simp only [Option.some.injEq, Prod.mk.injEq] at h
        obtain ⟨rfl, rfl, rfl⟩ := h
        exact hk
      · obtain ⟨o', h', rfl⟩ := prependOut_eq_some h
        exact ih idx r o' h'
    · obtain ⟨o', h', rfl⟩ := prependOut_eq_some h
      exact ih idx r o' h'

/-- Computation of `modify_item` when field `"1"` (filename) is chosen. -/
lemma modify_item_one {item : Item} {inputs r1 : List String} {o1 : List Out}
    {v : String} {r2 : List String} {o2 : List Out}
    (hc : ModifyItemCommand.read_user inputs = some ("1", r1, o1))
    (hv : readNonEmpty INVALID_INPUT_MSG r1 = some (v, r2, o2)) :
    ModifyItemCommand.modify_item item inputs =
      some ({ item with filename := v }, r2, o1 ++ o2) := by
  rw [ModifyItemCommand.modify_item, hc]
  simp only [if_pos rfl, hv]
  simp

/-- Computation of `modify_item` when field `"2"` (action) is chosen. -/
lemma modify_item_two {item : Item} {inputs r1 : List String} {o1 : List Out}
    {a : Action} {r2 : List String} {o2 : List Out}
    (hc : ModifyItemCommand.read_user inputs = some ("2", r1, o1))
    (hv : modifyReadAction r1 = some (a, r2, o2)) :
    ModifyItemCommand.modify_item item inputs =
      some ({ item with action := a }, r2, o1 ++ o2) := by
  rw [ModifyItemCommand.modify_item, hc]
  simp only [if_neg (by decide : ¬("2" : String) = "1"), if_pos rfl, hv]
  simp

/-- Computation of `modify_item` when field `"3"` (download link) is chosen. -/
lemma modify_item_three {item : Item} {inputs r1 : List String} {o1 : List Out}
    {v : String} {r2 : List String} {o2 : List Out}
    (hc : ModifyItemCommand.read_user inputs = some ("3", r1, o1))
    (hv : readNonEmpty INVALID_INPUT_MSG r1 = some (v, r2, o2)) :
    ModifyItemCommand.modify_item item inputs =
      some ({ item with download_link := v }, r2, o1 ++ o2) := by
  rw [ModifyItemCommand.modify_item, hc]
  simp only [if_neg (by decide : ¬("3" : String) = "1"),
    if_neg (by decide : ¬("3" : String) = "2"), if_pos rfl, hv]
  simp

/-- A successful `modify_item` run overwrites exactly one field, with a
non-empty value for the text fields. -/
lemma modify_item_shape {item : Item} {inputs : List String} {it' : Item}
    {r : List String} {o : List Out}
    (h : ModifyItemCommand.modify_item item inputs = some (it', r, o)) :
    (∃ v, v ≠ "" ∧ it' = { item with filename := v }) ∨
    (∃ a, it' = { item with action := a }) ∨
    (∃ v, v ≠ "" ∧ it' = { item with download_link := v }) := by
  rw [ModifyItemCommand.modify_item] at h
  split at h
  · cases h
  · rename_i c r1 o1 hc
    rcases read_user_mem inputs c r1 o1 hc with rfl | rfl | rfl
    · rw [if_pos rfl] at h
      split at h
      · cases h
      · rename_i v r2 o2 hv
        simp only [Option.some.injEq, Prod.mk.injEq] at h
        obtain ⟨rfl, rfl, rfl⟩ := h
        exact Or.inl ⟨v, readNonEmpty_ne r1 v r2 o2 hv, rfl⟩
    · rw [if_neg (by decide : ¬("2" : String) = "1"), if_pos rfl] at h
      split at h
      · cases h
      · rename_i a r2 o2 hv
        simp only [Option.some.injEq, Prod.mk.injEq] at h
        obtain ⟨rfl, rfl, rfl⟩ := h
        exact Or.inr (Or.inl ⟨a, rfl⟩)
    · rw [if_neg (by decide : ¬("3" : String) = "1"),
        if_neg (by decide : ¬("3" : String) = "2"), if_pos rfl] at h
      split at h
      · cases h
      · rename_i v r2 o2 hv
        simp only [Option.some.injEq, Prod.mk.injEq] at h
        obtain ⟨rfl, rfl, rfl⟩ := h
        exact Or.inr (Or.inr ⟨v, readNonEmpty_ne r1 v r2 o2 hv, rfl⟩)

/-- A modified item keeps non-empty text fields. -/
lemma modify_item_good {item : Item} {inputs : List String} {it' : Item}
    {r : List String} {o : List Out} (hg : good_item item)
    (h : ModifyItemCommand.modify_item item inputs = some (it', r, o)) :
    good_item it' := by
  rcases modify_item_shape h with ⟨v, hv, rfl⟩ | ⟨a, rfl⟩ | ⟨v, hv, rfl⟩
  · exact ⟨hv, hg.2⟩
  · exact hg
  · exact ⟨hg.1, hv⟩

/-- Computation of `ModifyItemCommand::execute` on a non-empty list once the
index selection and the item modification both succeed. -/
lemma modify_execute_eq {items : List Item} {inputs r1 : List String} {idx : Nat}
    {o1 : List Out} {it' : Item} {r2 : List String} {o2 : List Out}
    (hne : items ≠ [])
    (h1 : read_item_idx items inputs = some (idx, r1, o1))
    (h2 : ModifyItemCommand.modify_item (items.getD idx Item.default) r1 =
      some (it', r2, o2)) :
    ModifyItemCommand.execute items inputs =
      some (items.set idx it', r2, o1 ++ o2, none) := by
  rw [ModifyItemCommand.execute,
    if_neg (by simp [List.isEmpty_iff, hne] : ¬items.isEmpty = true), h1]
  simp only [h2]

/-- C1: the JSON emitter produces a JSON array with one object per item, in
the same order as the list; each object has exactly the keys `mod_filename`,
`action`, `download_link` in that field order, the `action` value being the
uppercase canonical string of the item's action. -/
theorem print_items_json_spec (items : List Item) :
    items_to_json items = JVal.arr (items.map item_to_json_value) ∧
    (items.map item_to_json_value).length = items.length ∧
    (∀ i : Nat, (items.map item_to_json_value)[i]? =
      (items[i]?).map item_to_json_value) ∧
    (∀ it : Item, item_to_json_value it =
      JVal.obj [("mod_filename", JVal.str it.filename),
        ("action", JVal.str (Action.to_str it.action)),
        ("download_link", JVal.str it.download_link)]) ∧
    (∀ a : Action, asciiUpper (Action.to_str a) = Action.to_str a) := by
  refine ⟨rfl, List.length_map items item_to_json_value,
    fun i => List.getElem?_map item_to_json_value items i, fun it => rfl, fun a => ?_⟩
  cases a <;> rfl

/-- Witness for C1 at a concrete two-item list. -/
theorem print_items_json_spec_w :
    items_to_json demoItems = JVal.arr (demoItems.map item_to_json_value) :=
  (print_items_json_spec demoItems).1

/-- C8: for every case variant of a canonical action string, `Action::try_from`
succeeds and `to_str` of the result is the uppercase canonical form. -/
theorem action_parse_roundtrip (s : String) :
    (eqIgnoreAsciiCase s "ADD" = true →
      Action.try_from s = Except.ok Action.Add ∧ Action.to_str Action.Add = "ADD") ∧
    (eqIgnoreAsciiCase s "DELETE" = true →
      Action.try_from s = Except.ok Action.Delete ∧
        Action.to_str Action.Delete = "DELETE") ∧
    (eqIgnoreAsciiCase s "UPDATE" = true →
      Action.try_from s = Except.ok Action.Update ∧
        Action.to_str Action.Update = "UPDATE") := by
  refine ⟨fun h => ⟨?_, rfl⟩, fun h => ⟨?_, rfl⟩, fun h => ⟨?_, rfl⟩⟩
  · simp [Action.try_from, h]
  · have h' := h
    unfold eqIgnoreAsciiCase at h'
    rw [beq_iff_eq] at h'
    have h1 : eqIgnoreAsciiCase s "ADD" = false := by
      unfold eqIgnoreAsciiCase
      rw [h']
      decide
    simp [Action.try_from, h1, h]
  · have h' := h
    unfold eqIgnoreAsciiCase at h'
    rw [beq_iff_eq] at h'
    have h1 : eqIgnoreAsciiCase s "ADD" = false := by
      unfold eqIgnoreAsciiCase
      rw [h']
      decide
    have h2 : eqIgnoreAsciiCase s "DELETE" = false := by
      unfold eqIgnoreAsciiCase
      rw [h']
      decide
    simp [Action.try_from, h1, h2, h]

/-- Witness for C8 at the mixed-case token `"uPDATE"`. -/
theorem action_parse_roundtrip_w :
    Action.try_from "uPDATE" = Except.ok Action.Update ∧
      Action.to_str Action.Update = "UPDATE" :=
  (action_parse_roundtrip "uPDATE").2.2 (by decide)

/-- C9: `Action::try_from` errs exactly when the input is not a
case-insensitive match of `"ADD"`, `"DELETE"` or `"UPDATE"`, and the error
carries the offending text. -/
theorem action_parse_error_iff (s : String) :
    (Action.try_from s = Except.error ("Invalid action: " ++ s) ↔
      ¬(eqIgnoreAsciiCase s "ADD" = true ∨ eqIgnoreAsciiCase s "DELETE" = true ∨
        eqIgnoreAsciiCase s "UPDATE" = true)) ∧
    (∀ e, Action.try_from s = Except.error e → e = "Invalid action: " ++ s) := by
  constructor
  · constructor
    · intro h hc
      rcases hc with h1 | h1 | h1
      · simp [Action.try_from, h1] at h
      · cases hA : eqIgnoreAsciiCase s "ADD" <;>
          simp [Action.try_from, hA, h1] at h
      · cases hA : eqIgnoreAsciiCase s "ADD" <;>
          cases hD : eqIgnoreAsciiCase s "DELETE" <;>
            simp [Action.try_from, hA, hD, h1] at h
    · intro hc
      simp only [not_or, Bool.not_eq_true] at hc
      obtain ⟨h1, h2, h3⟩ := hc
      simp [Action.try_from, h1, h2, h3]
  · intro e he
    unfold Action.try_from at he
    split at he
    · cases he
    · split at he
      · cases he
      · split at he
        · cases he
        · simp only [Except.error.injEq] at he
          exact he.symm

/-- Witness for C9: the unrecognized token `"REMOVE"` fails with the error
text carrying the token. -/
theorem action_parse_error_iff_w :
    Action.try_from "REMOVE" = Except.error ("Invalid action: " ++ "REMOVE") :=
  ((action_parse_error_iff "REMOVE").1).mpr (by decide)

/-- C10: the field-choice helper only returns `"1"`, `"2"` or `"3"`, and every
successful `modify_item` run assigns exactly one field (the catch-all branch
is unreachable). -/
theorem modify_field_choice_spec :
    (∀ inputs c r o, ModifyItemCommand.read_user inputs = some (c, r, o) →
      c = "1" ∨ c = "2" ∨ c = "3") ∧
    (∀ item inputs it' r o,
      ModifyItemCommand.modify_item item inputs = some (it', r, o) →
      (∃ v, v ≠ "" ∧ it' = { item with filename := v }) ∨
      (∃ a, it' = { item with action := a }) ∨
      (∃ v, v ≠ "" ∧ it' = { item with download_link := v })) :=
  ⟨read_user_mem, fun _ _ _ _ _ h => modify_item_shape h⟩

/-- Witness for C10 at the concrete token `"1"`. -/
theorem modify_field_choice_spec_w :
    ("1" : String) = "1" ∨ ("1" : String) = "2" ∨ ("1" : String) = "3" :=
  modify_field_choice_spec.1 ["1"] "1" [] [] rfl

/-- C2: for a non-empty list of length L, `read_item_idx` returns `k - 1`
exactly when the token parses as an integer `k` with `1 ≤ k ≤ L`; a token
parsing as `0` or as an integer above `L` retries after the out-of-bounds
warning, a non-parsing token retries after the generic invalid-input warning,
and the returned index is always in bounds. -/
theorem read_item_idx_spec (items : List Item) (hne : items ≠ []) :
    (∀ tok rest k, parseUsize tok = some k → 1 ≤ k → k ≤ items.length →
      read_item_idx items (tok :: rest) = some (k - 1, rest, [])) ∧
    (∀ tok rest k, parseUsize tok = some k → (k = 0 ∨ items.length < k) →
      read_item_idx items (tok :: rest) =
        prependOut (Out.warn OUT_OF_BOUNDS_MSG) (read_item_idx items rest)) ∧
    (∀ tok rest, parseUsize tok = none →
      read_item_idx items (tok :: rest) =
        prependOut (Out.warn INVALID_INPUT_MSG) (read_item_idx items rest)) ∧
    (∀ inputs idx r o, read_item_idx items inputs = some (idx, r, o) →
      idx < items.length) := by
  refine ⟨?_, ?_, ?_, fun inputs => read_item_idx_lt inputs⟩
  · intro tok rest k hp h1 h2
    cases k with
    | zero => omega
    | succ k' =>
      have hk : k' < items.length := by omega
      rw [read_item_idx]
      simp only [hp, Nat.succ_sub_one, if_pos hk]
  · intro tok rest k hp hk
    cases k with
    | zero =>
      rw [read_item_idx]
      simp only [hp]
    | succ k' =>
      have hk' : ¬k' < items.length := by omega
      rw [read_item_idx]
      simp only [hp, if_neg hk']
  · intro tok rest hp
    rw [read_item_idx]
    simp only [hp]

/-- Witness for C2: token `"2"` on the two-item list selects zero-based 1. -/
theorem read_item_idx_spec_w :
    read_item_idx demoItems ["2"] = some (1, [], []) :=
  (read_item_idx_spec demoItems (by decide)).1 "2" [] 2 rfl (by decide) (by decide)

/-- C3: one Add execution with valid field inputs appends exactly one item:
length grows by one, the first N items are unchanged, and the new last item's
fields are the first valid values of the three prompts. -/
theorem add_execute_spec (items : List Item) (inputs r1 r2 r3 : List String)
    (f d : String) (a : Action) (o1 o2 o3 : List Out)
    (h1 : readNonEmpty EMPTY_FILENAME_MSG inputs = some (f, r1, o1))
    (h2 : readActionAdd r1 = some (a, r2, o2))
    (h3 : readNonEmpty EMPTY_FILENAME_MSG r2 = some (d, r3, o3)) :
    AddItemCommand.execute items inputs =
      some (items ++ [Item.mk f a d], r3, o1 ++ o2 ++ o3, none) ∧
    (items ++ [Item.mk f a d]).length = items.length + 1 ∧
    (∀ i, i < items.length → (items ++ [Item.mk f a d])[i]? = items[i]?) ∧
    (items ++ [Item.mk f a d])[items.length]? = some (Item.mk f a d) := by
  refine ⟨?_, by simp, fun i hi => List.getElem?_append_left hi,
    List.getElem?_concat_length items (Item.mk f a d)⟩
  rw [AddItemCommand.execute, read_user_item]
  simp only [h1, h2, h3]

/-- Witness for C3: adding `{mod.zip, ADD, http://x/y}` to the demo list. -/
theorem add_execute_spec_w :
    AddItemCommand.execute demoItems ["mod.zip", "ADD", "http://x/y"] =
      some (demoItems ++ [Item.mk "mod.zip" Action.Add "http://x/y"], [], [], none) :=
  (add_execute_spec demoItems ["mod.zip", "ADD", "http://x/y"]
    ["ADD", "http://x/y"] ["http://x/y"] [] "mod.zip" "http://x/y" Action.Add
    [] [] [] rfl rfl rfl).1

/-- C4: deleting the selected zero-based index `idx` removes exactly that
item, items before it are unchanged, items after it shift down by one, and
the length decreases by exactly one. -/
theorem delete_execute_spec (items : List Item) (inputs r : List String)
    (o : List Out) (idx : Nat) (hne : items ≠ [])
    (h : read_item_idx items inputs = some (idx, r, o)) :
    DeleteItemCommand.execute items inputs =
      some (items.eraseIdx idx, r, o, none) ∧
    idx < items.length ∧
    (items.eraseIdx idx).length + 1 = items.length ∧
    (∀ i, i < idx → (items.eraseIdx idx)[i]? = items[i]?) ∧
    (∀ i, idx ≤ i → (items.eraseIdx idx)[i]? = items[i + 1]?) := by
  have hlt : idx < items.length := read_item_idx_lt inputs idx r o h
  refine ⟨?_, hlt, ?_, fun i hi => List.getElem?_eraseIdx_of_lt items idx i hi,
    fun i hi => List.getElem?_eraseIdx_of_ge items idx i hi⟩
  · rw [DeleteItemCommand.execute,
      if_neg (by simp [List.isEmpty_iff, hne] : ¬items.isEmpty = true)]
    simp only [h]
  · rw [List.length_eraseIdx_of_lt hlt]
    omega

/-- Witness for C4: deleting 1-based index 1 of the demo list leaves the
second item. -/
theorem delete_execute_spec_w :
    DeleteItemCommand.execute demoItems ["1"] = some ([demoItem2], [], [], none) :=
  (delete_execute_spec demoItems ["1"] [] [] 0 (by decide) rfl).1

/-- Inversion of `ModifyItemCommand::execute` on a non-empty list: a
successful run goes through index selection and item modification, and the
result is a point update of the list. -/
lemma modify_execute_inv {items : List Item} {inputs : List String}
    {res : List Item} {r : List String} {o : List Out} {e : Option Nat}
    (hne : items ≠ [])
    (h : ModifyItemCommand.execute items inputs = some (res, r, o, e)) :
    ∃ idx r1 o1 it' o2, read_item_idx items inputs = some (idx, r1, o1) ∧
      ModifyItemCommand.modify_item (items.getD idx Item.default) r1 =
        some (it', r, o2) ∧
      res = items.set idx it' ∧ o = o1 ++ o2 ∧ e = none := by
  rw [ModifyItemCommand.execute,
    if_neg (by simp [List.isEmpty_iff, hne] : ¬items.isEmpty = true)] at h
  split at h
  · cases h
  · rename_i idx r1 o1 h1
    split at h
    · cases h
    · rename_i it' r2 o2 h2
      simp only [Option.some.injEq, Prod.mk.injEq] at h
      obtain ⟨rfl, rfl, rfl, rfl⟩ := h
      exact ⟨idx, r1, o1, it', o2, h1, h2, rfl, rfl, rfl⟩

/-- C5: Modify overwrites only the chosen field of the selected item with the
first valid new value; the other two fields, all other items, and the length
are unchanged. -/
theorem modify_execute_spec (items : List Item) (inputs r1 r2 : List String)
    (idx : Nat) (c : String) (o1 o2 : List Out) (hne : items ≠ [])
    (h1 : read_item_idx items inputs = some (idx, r1, o1))
    (h2 : ModifyItemCommand.read_user r1 = some (c, r2, o2)) :
    (∀ v r3 o3, c = "1" → readNonEmpty INVALID_INPUT_MSG r2 = some (v, r3, o3) →
      ModifyItemCommand.execute items inputs =
        some (items.set idx { items.getD idx Item.default with filename := v },
          r3, o1 ++ (o2 ++ o3), none)) ∧
    (∀ a r3 o3, c = "2" → modifyReadAction r2 = some (a, r3, o3) →
      ModifyItemCommand.execute items inputs =
        some (items.set idx { items.getD idx Item.default with action := a },
          r3, o1 ++ (o2 ++ o3), none)) ∧
    (∀ v r3 o3, c = "3" → readNonEmpty INVALID_INPUT_MSG r2 = some (v, r3, o3) →
      ModifyItemCommand.execute items inputs =
        some (items.set idx { items.getD idx Item.default with download_link := v },
          r3, o1 ++ (o2 ++ o3), none)) ∧
    (∀ res r o e, ModifyItemCommand.execute items inputs = some (res, r, o, e) →
      res.length = items.length ∧
      (∀ j, j ≠ idx → res[j]? = items[j]?) ∧
      preservesTwoFields (items.getD idx Item.default)
        (res.getD idx Item.default)) := by
  refine ⟨?_, ?_, ?_, ?_⟩
  · intro v r3 o3 hc hv
    subst hc
    exact modify_execute_eq hne h1 (modify_item_one h2 hv)
  · intro a r3 o3 hc hv
    subst hc
    exact modify_execute_eq hne h1 (modify_item_two h2 hv)
  · intro v r3 o3 hc hv
    subst hc
    exact modify_execute_eq hne h1 (modify_item_three h2 hv)
  · intro res r o e hres
    obtain ⟨idx', r1', o1', it', o2', h1', h2', rfl, rfl, rfl⟩ :=
      modify_execute_inv hne hres
    have hdet : idx = idx' ∧ r1 = r1' ∧ o1 = o1' := by
      have h12 := h1.symm.trans h1'
      simpa using h12
    obtain ⟨rfl, rfl, rfl⟩ := hdet
    have hlt : idx < items.length := read_item_idx_lt inputs idx r1 o1 h1
    have hat : (items.set idx it').getD idx Item.default = it' := by
      rw [List.getD_eq_getElem?_getD, List.getElem?_set_self hlt]
      rfl
    refine ⟨List.length_set items idx it', fun j hj => ?_, ?_⟩
    · exact List.getElem?_set_ne (fun hij => hj hij.symm)
    · rw [hat]
      rcases modify_item_shape h2' with ⟨v, hv, rfl⟩ | ⟨a, rfl⟩ | ⟨v, hv, rfl⟩
      · exact Or.inl ⟨rfl, rfl⟩
      · exact Or.inr (Or.inl ⟨rfl, rfl⟩)
      · exact Or.inr (Or.inr ⟨rfl, rfl⟩)

/-- Witness for C5: choosing field 2 (action) of the first demo item with new
value `"update"`. -/
theorem modify_execute_spec_w :
    ModifyItemCommand.execute demoItems ["1", "2", "update"] =
      some ([Item.mk "a.zip" Action.Update "u1", demoItem2], [], [], none) :=
  (modify_execute_spec demoItems ["1", "2", "update"] ["2", "update"] ["update"]
    0 "2" [] [] (by decide) rfl rfl).2.1 Action.Update [] [] rfl rfl

/-- C6: starting from the empty list, every command execution preserves the
invariant that every item has non-empty `filename` and `download_link`. -/
theorem invariant_preserved :
    items_invariant [] ∧
    ∀ a items inputs res r o e, items_invariant items →
      execute_command a items inputs = some (res, r, o, e) →
      items_invariant res := by
  refine ⟨fun it hit => absurd hit (List.not_mem_nil it), ?_⟩
  intro a items inputs res r o e hInv hexec
  cases a with
  | Quit =>
    rw [execute_command, QuitCommand.execute] at hexec
    simp only [Option.some.injEq, Prod.mk.injEq] at hexec
    obtain ⟨rfl, rfl, rfl, rfl⟩ := hexec
    exact hInv
  | AddItem =>
    rw [execute_command, AddItemCommand.execute] at hexec
    split at hexec
    · cases hexec
    · rename_i it r' o' hread
      simp only [Option.some.injEq, Prod.mk.injEq] at hexec
      obtain ⟨rfl, rfl, rfl, rfl⟩ := hexec
      intro x hx
      rcases List.mem_append.mp hx with hx' | hx'
      · exact hInv x hx'
      · rw [List.mem_singleton.mp hx']
        exact read_user_item_good hread
  | ModifyItem =>
    by_cases hemp : items = []
    · subst hemp
      rw [execute_command, ModifyItemCommand.execute] at hexec
      simp only [List.isEmpty_nil, if_true, Option.some.injEq,
        Prod.mk.injEq] at hexec
      obtain ⟨rfl, rfl, rfl, rfl⟩ := hexec
      exact hInv
    · rw [execute_command] at hexec
      obtain ⟨idx, r1, o1, it', o2, h1, h2, rfl, rfl, rfl⟩ :=
        modify_execute_inv hemp hexec
      intro x hx
      rcases List.mem_or_eq_of_mem_set hx with hx' | rfl
      · exact hInv x hx'
      · have hlt := read_item_idx_lt inputs idx r1 o1 h1
        have hgood : good_item (items.getD idx Item.default) := by
          have hmem : items.getD idx Item.default ∈ items := by
            rw [List.getD_eq_getElem?_getD, List.getElem?_eq_getElem hlt]
            exact List.getElem_mem hlt
          exact hInv _ hmem
        exact modify_item_good hgood h2
  | DeleteItem =>
    by_cases hemp : items = []
    · subst hemp
      rw [execute_command, DeleteItemCommand.execute] at hexec
      simp only [List.isEmpty_nil, if_true, Option.some.injEq,
        Prod.mk.injEq] at hexec
      obtain ⟨rfl, rfl, rfl, rfl⟩ := hexec
      exact hInv
    · rw [execute_command, DeleteItemCommand.execute,
        if_neg (by simp [List.isEmpty_iff, hemp] : ¬items.isEmpty = true)] at hexec
      split at hexec
      · cases hexec
      · rename_i idx r' o' hidx
        simp only [Option.some.injEq, Prod.mk.injEq] at hexec
        obtain ⟨rfl, rfl, rfl, rfl⟩ := hexec
        intro x hx
        exact hInv x (List.mem_of_mem_eraseIdx hx)
  | Show =>
    by_cases hemp : items = []
    · subst hemp
      rw [execute_command, ShowItemsCommand.execute] at hexec
      simp only [List.isEmpty_nil, if_true, Option.some.injEq,
        Prod.mk.injEq] at hexec
      obtain ⟨rfl, rfl, rfl, rfl⟩ := hexec
      exact hInv
    · rw [execute_command, ShowItemsCommand.execute,
        if_neg (by simp [List.isEmpty_iff, hemp] : ¬items.isEmpty = true)] at hexec
      simp only [Option.some.injEq, Prod.mk.injEq] at hexec
      obtain ⟨rfl, rfl, rfl, rfl⟩ := hexec
      exact hInv

/-- Witness for C6: the invariant holds after one Add on the empty list. -/
theorem invariant_preserved_w : items_invariant [demoItem1] :=
  invariant_preserved.2 TerminalAction.AddItem [] ["a.zip", "ADD", "u1"]
    [demoItem1] [] [] none invariant_preserved.1 rfl

/-- C7: on the empty list, Delete, Modify and Show warn and leave the list
unchanged, Quit prints nothing and exits with code 0, and no command ever
emits a JSON dump (the empty list is never serialized). -/
theorem empty_list_commands (inputs : List String) :
    DeleteItemCommand.execute [] inputs =
      some ([], inputs, [Out.warn NO_ITEMS_DELETE_MSG], none) ∧
    ModifyItemCommand.execute [] inputs =
      some ([], inputs, [Out.warn NO_ITEMS_MODIFY_MSG], none) ∧
    ShowItemsCommand.execute [] inputs =
      some ([], inputs, [Out.warn NO_ITEMS_SHOW_MSG], none) ∧
    QuitCommand.execute [] inputs = some ([], inputs, [], some 0) ∧
    (∀ a res r o e, execute_command a ([] : List Item) inputs = some (res, r, o, e) →
      ∀ v, Out.jsonOut v ∉ o) := by
  refine ⟨rfl, rfl, rfl, rfl, ?_⟩
  intro a res r o e hexec v hv
  cases a with
  | Quit =>
    rw [execute_command, QuitCommand.execute] at hexec
    simp only [List.isEmpty_nil, if_true, Option.some.injEq,
      Prod.mk.injEq] at hexec
    obtain ⟨rfl, rfl, rfl, rfl⟩ := hexec
    simp at hv
  | AddItem =>
    rw [execute_command, AddItemCommand.execute] at hexec
    split at hexec
    · cases hexec
    · rename_i it r' o' hread
      simp only [Option.some.injEq, Prod.mk.injEq] at hexec
      obtain ⟨rfl, rfl, rfl, rfl⟩ := hexec
      obtain ⟨m, hm⟩ := read_user_item_warn_only hread (Out.jsonOut v) hv
      cases hm
  | ModifyItem =>
    rw [execute_command, ModifyItemCommand.execute] at hexec
    simp only [List.isEmpty_nil, if_true, Option.some.injEq,
      Prod.mk.injEq] at hexec
    obtain ⟨rfl, rfl, rfl, rfl⟩ := hexec
    simp at hv
  | DeleteItem =>
    rw [execute_command, DeleteItemCommand.execute] at hexec
    simp only [List.isEmpty_nil, if_true, Option.some.injEq,
      Prod.mk.injEq] at hexec
    obtain ⟨rfl, rfl, rfl, rfl⟩ := hexec
    simp at hv
  | Show =>
    rw [execute_command, ShowItemsCommand.execute] at hexec
    simp only [List.isEmpty_nil, if_true, Option.some.injEq,
      Prod.mk.injEq] at hexec
    obtain ⟨rfl, rfl, rfl, rfl⟩ := hexec
    simp at hv

/-- Witness for C7: Delete on the empty list with no input. -/
theorem empty_list_commands_w :
    DeleteItemCommand.execute [] [] =
      some ([], [], [Out.warn NO_ITEMS_DELETE_MSG], none) :=
  (empty_list_commands []).1

end ModPatcher
